import Mathlib

/-!
Verification development for the libacvp TDES vector-set engine
(`acvp_des.c`) and the authenticated transport layer
(`acvp_transport.c`).  The C sources are shallowly embedded: byte
buffers become `List Nat` (each element an `unsigned char` value),
stateful loops become structural recursion with explicit state records,
HTTP and DUT effects become oracle parameters, and observable behaviour
is recorded in event traces.
-/

set_option maxHeartbeats 1000000
set_option maxRecDepth 4000

namespace Libacvp

/-- Result codes of the library (the `ACVP_RESULT` enum; only the
constructors exercised by the embedded functions are included). -/
inductive ACVP_RESULT where
  | success
  | no_ctx
  | missing_arg
  | invalid_arg
  | malformed_json
  | malloc_fail
  | unsupported_op
  | crypto_module_fail
  | crypto_wrap_fail
  | transport_fail
  | jwt_expired
  | jwt_invalid
  | json_err
  | no_data
deriving DecidableEq, Repr

/-- Symmetric cipher identifiers for the TDES modes handled by
`acvp_des.c` (`ACVP_CIPHER` restricted to the TDES entries). -/
inductive Cipher where
  | tdes_ecb
  | tdes_cbc
  | tdes_ofb
  | tdes_cfb1
  | tdes_cfb8
  | tdes_cfb64
  | tdes_kw
deriving DecidableEq, Repr

/-- Cipher direction (`ACVP_SYM_CIPH_DIR`). -/
inductive Dir where
  | encrypt
  | decrypt
deriving DecidableEq, Repr

/-- Test type (`ACVP_SYM_CIPH_TESTTYPE`). -/
inductive TestType where
  | aft
  | mct
  | ctr
deriving DecidableEq, Repr

/-- Byte buffers: lists of `unsigned char` values. -/
abbrev Bytes := List Nat

/-- Embedding of `memcpy(dst + off, src, n)` within a fixed-size C
buffer: bytes `off .. off+n-1` of `dst` are overwritten by the first
`n` bytes of `src`; writes beyond the end of `dst` are dropped (the C
code never exceeds its buffer bounds in the modelled runs). -/
def memcpyAt (dst : Bytes) (off : Nat) (src : Bytes) (n : Nat) : Bytes :=
  (List.range n).foldl (fun d k => d.set (off + k) (src.getD k 0)) dst

/-- Modelled from the spec: `acvp_bin_to_hexstr` (defined in
`acvp_util.c`, which is not part of the sources) converts the first
`n` bytes of a buffer to lowercase hex, two characters per byte
(spec section 4.A).  This is one hex digit. -/
def nibbleChar (x : Nat) : Char :=
  let v := x % 16
  if v < 10 then Char.ofNat ('0'.toNat + v) else Char.ofNat ('a'.toNat + v - 10)

/-- Modelled from the spec: lowercase-hex encoding of the first `n`
bytes of `src` (`acvp_bin_to_hexstr`, `acvp_util.c` not in sources). -/
def acvp_bin_to_hexstr (src : Bytes) (n : Nat) : List Char :=
  (List.range n).flatMap (fun k => [nibbleChar (src.getD k 0 / 16), nibbleChar (src.getD k 0)])

/-- Value of one hex digit (upper or lower case), `none` on non-hex input. -/
def hexDigitVal (c : Char) : Option Nat :=
  if '0' ≤ c ∧ c ≤ '9' then some (c.toNat - '0'.toNat)
  else if 'a' ≤ c ∧ c ≤ 'f' then some (c.toNat - 'a'.toNat + 10)
  else if 'A' ≤ c ∧ c ≤ 'F' then some (c.toNat - 'A'.toNat + 10)
  else none

/-- Modelled from the spec: `acvp_hexstr_to_bin` (`acvp_util.c`, not in
the sources) decodes a hex string to bytes; it fails on non-hex
characters or odd length (spec section 4.A). -/
def acvp_hexstr_to_bin : List Char → Option Bytes
  | [] => some []
  | [_] => none
  | c1 :: c2 :: rest =>
    match hexDigitVal c1, hexDigitVal c2, acvp_hexstr_to_bin rest with
    | some h, some l, some bs => some ((h * 16 + l) :: bs)
    | _, _, _ => none

/-- The 256-entry DES odd-parity lookup table (`odd_parity` in
`acvp_des.c`). -/
def odd_parity : List Nat :=
  [1,   1,   2,   2,   4,   4,   7,   7,   8,   8,   11,  11,  13,  13,  14,  14,
   16,  16,  19,  19,  21,  21,  22,  22,  25,  25,  26,  26,  28,  28,  31,  31,
   32,  32,  35,  35,  37,  37,  38,  38,  41,  41,  42,  42,  44,  44,  47,  47,
   49,  49,  50,  50,  52,  52,  55,  55,  56,  56,  59,  59,  61,  61,  62,  62,
   64,  64,  67,  67,  69,  69,  70,  70,  73,  73,  74,  74,  76,  76,  79,  79,
   81,  81,  82,  82,  84,  84,  87,  87,  88,  88,  91,  91,  93,  93,  94,  94,
   97,  97,  98,  98,  100, 100, 103, 103, 104, 104, 107, 107, 109, 109, 110, 110,
   112, 112, 115, 115, 117, 117, 118, 118, 121, 121, 122, 122, 124, 124, 127, 127,
   128, 128, 131, 131, 133, 133, 134, 134, 137, 137, 138, 138, 140, 140, 143, 143,
   145, 145, 146, 146, 148, 148, 151, 151, 152, 152, 155, 155, 157, 157, 158, 158,
   161, 161, 162, 162, 164, 164, 167, 167, 168, 168, 171, 171, 173, 173, 174, 174,
   176, 176, 179, 179, 181, 181, 182, 182, 185, 185, 186, 186, 188, 188, 191, 191,
   193, 193, 194, 194, 196, 196, 199, 199, 200, 200, 203, 203, 205, 205, 206, 206,
   208, 208, 211, 211, 213, 213, 214, 214, 217, 217, 218, 218, 220, 220, 223, 223,
   224, 224, 227, 227, 229, 229, 230, 230, 233, 233, 234, 234, 236, 236, 239, 239,
   241, 241, 242, 242, 244, 244, 247, 247, 248, 248, 251, 251, 253, 253, 254, 254]

/-- One table lookup `odd_parity[b]`; the C index is an `unsigned
char`, hence the `% 256`. -/
def oddParityLookup (b : Nat) : Nat := odd_parity.getD (b % 256) 0

/-- Embedding of `acvp_des_set_odd_parity`: every one of the 24 key
bytes is replaced by its odd-parity table entry.  The C loop runs over
indices `0..23` of the key buffer; on the modelled 24-byte key list
this is a pointwise map. -/
def acvp_des_set_odd_parity (key : Bytes) : Bytes :=
  key.map oddParityLookup

/-- Number of 1-bits among the 8 bits of a byte. -/
def byteOnesCount (b : Nat) : Nat :=
  ((List.range 8).filter (fun k => b.testBit k)).length

/-- A byte has DES odd parity when its count of 1-bits is odd. -/
def byteHasOddParity (b : Nat) : Bool :=
  byteOnesCount b % 2 == 1

/-- Embedding of `shiftin(dst, src, nbits)` (`acvp_des.c`): shift the
24-byte register left by `nbits` bits, appending `src` at the
least-significant end.  `dst` is the 32-byte `nk` array; the bit loop
reads one byte past index 23, which stays inside the array. -/
def shiftin (dst src : Bytes) (nbits : Nat) : Bytes :=
  let d1 := memcpyAt dst 0 (dst.drop (nbits / 8)) (3 * 8 - nbits / 8)
  let d2 := memcpyAt d1 (3 * 8 - nbits / 8) src ((nbits + 7) / 8)
  if nbits % 8 ≠ 0 then
    (List.range (3 * 8)).foldl
      (fun d n =>
        d.set n (((d.getD n 0 <<< (nbits % 8)) ||| (d.getD (n + 1) 0 >>> (8 - nbits % 8))) % 256))
      d2
  else d2

/-- A symmetric test case in flight (`ACVP_SYM_CIPHER_TC`).  Buffer
fields hold the meaningful prefix of the corresponding heap buffer. -/
structure SymTC where
  tc_id : Nat := 0
  test_type : TestType := .aft
  cipher : Cipher := .tdes_ecb
  direction : Dir := .encrypt
  key_len : Nat := 0
  iv_len : Nat := 0
  pt_len : Nat := 0
  ct_len : Nat := 0
  mct_index : Nat := 0
  key : Bytes := []
  pt : Bytes := []
  ct : Bytes := []
  iv : Bytes := []
  iv_ret : Bytes := []
  iv_ret_after : Bytes := []
deriving DecidableEq, Repr

/-- Modelled from the spec: TDES MCT runs 100 outer rounds
(`ACVP_DES_MCT_OUTER`, defined in `acvp_lcl.h` which is not in the
sources; spec section 4.E). -/
def ACVP_DES_MCT_OUTER : Nat := 100

/-- Modelled from the spec: each outer round runs 1000 inner rounds
(`ACVP_DES_MCT_INNER`, `acvp_lcl.h` not in the sources). -/
def ACVP_DES_MCT_INNER : Nat := 1000

/-- Modelled from the spec: the TDES key is 24 bytes
(`ACVP_TDES_KEY_BYTE_LEN`, `acvp_lcl.h` not in the sources). -/
def ACVP_TDES_KEY_BYTE_LEN : Nat := 24

/-- Modelled from the spec: the TDES key travels as 48 hex characters,
three 16-character fragments (`ACVP_TDES_KEY_STR_LEN`, `acvp_lcl.h`
not in the sources). -/
def ACVP_TDES_KEY_STR_LEN : Nat := 48

/-- Modelled from the spec: for CFB1 the single payload bit lives in
bit 7, mask `0x80` (`ACVP_CFB1_BIT_MASK`, `acvp_lcl.h` not in the
sources; spec section 8). -/
def ACVP_CFB1_BIT_MASK : Nat := 128

/-- One MCT response round object (the JSON object built per outer
round: `key1`/`key2`/`key3`, optional `iv`, optional `pt`/`ct`). -/
structure RoundObj where
  key1 : List Char
  key2 : List Char
  key3 : List Char
  iv : Option (List Char) := none
  pt : Option (List Char) := none
  ct : Option (List Char) := none
deriving DecidableEq, Repr

/-- Engine state: the test case plus the file-scope globals of
`acvp_des.c` (`old_iv`, `ptext`, `ctext` — statics, hence
zero-initialized) and the stack register `nk` (32 bytes, arbitrary
initial contents supplied by the caller). -/
structure MctState where
  stc : SymTC
  old_iv : Bytes
  ptext : Nat → Bytes
  ctext : Nat → Bytes
  nk : Bytes

/-- Embedding of `acvp_des_mct_iterate_tc`: store this round's `pt`/`ct`
into the global arrays, then evolve the test case per mode and
direction. -/
def acvp_des_mct_iterate_tc (st : MctState) : MctState :=
  let stc := st.stc
  let j := stc.mct_index
  let ctext := fun j' => if j' = j then memcpyAt (st.ctext j) 0 stc.ct stc.ct_len else st.ctext j'
  let ptext := fun j' => if j' = j then memcpyAt (st.ptext j) 0 stc.pt stc.pt_len else st.ptext j'
  let st := { st with ptext := ptext, ctext := ctext }
  match stc.cipher, stc.direction with
  | .tdes_cbc, .encrypt =>
    let pt := if j = 0 then memcpyAt stc.pt 0 st.old_iv 8
              else (List.range 8).foldl (fun p n => p.set n ((ctext (j - 1)).getD n 0)) stc.pt
    let iv := (List.range 8).foldl (fun v n => v.set n ((ctext j).getD n 0)) stc.iv
    { st with stc := { stc with pt := pt, iv := iv } }
  | .tdes_cbc, .decrypt =>
    let ct := (List.range 8).foldl (fun c n => c.set n ((ptext j).getD n 0)) stc.ct
    let iv := if j ≠ 0 then (List.range 8).foldl (fun v n => v.set n ((ptext (j - 1)).getD n 0)) stc.iv
              else stc.iv
    { st with stc := { stc with ct := ct, iv := iv } }
  | .tdes_cfb64, .encrypt =>
    let pt := if j = 0 then memcpyAt stc.pt 0 st.old_iv 8
              else (List.range 8).foldl (fun p n => p.set n ((ctext (j - 1)).getD n 0)) stc.pt
    let iv := (List.range 8).foldl (fun v n => v.set n ((ctext j).getD n 0)) stc.iv
    { st with stc := { stc with pt := pt, iv := iv } }
  | .tdes_cfb64, .decrypt =>
    let ct := (List.range 8).foldl (fun c n => c.set n (c.getD n 0 ^^^ stc.pt.getD n 0)) stc.ct
    let iv := (List.range 8).foldl (fun v n => v.set n (stc.pt.getD n 0 ^^^ ct.getD n 0)) stc.iv
    { st with stc := { stc with ct := ct, iv := iv } }
  | .tdes_ofb, .encrypt =>
    let pt := if j = 0 then memcpyAt stc.pt 0 st.old_iv 8
              else (List.range 8).foldl (fun p n => p.set n (stc.iv_ret.getD n 0)) stc.pt
    { st with stc := { stc with pt := pt } }
  | .tdes_ofb, .decrypt =>
    let ct := if j = 0 then memcpyAt stc.ct 0 st.old_iv 8
              else (List.range 8).foldl (fun c n => c.set n (stc.iv_ret.getD n 0)) stc.ct
    { st with stc := { stc with ct := ct } }
  | .tdes_cfb1, .encrypt =>
    let pt := if j = 0 then memcpyAt stc.pt 0 st.old_iv 8
              else (List.range 8).foldl (fun p n => p.set n (stc.iv_ret.getD n 0)) stc.pt
    { st with stc := { stc with pt := pt } }
  | .tdes_cfb8, .encrypt =>
    let pt := if j = 0 then memcpyAt stc.pt 0 st.old_iv 8
              else (List.range 8).foldl (fun p n => p.set n (stc.iv_ret.getD n 0)) stc.pt
    { st with stc := { stc with pt := pt } }
  | .tdes_cfb1, .decrypt =>
    let ct := (List.range 8).foldl (fun c n => c.set n (c.getD n 0 ^^^ stc.pt.getD n 0)) stc.ct
    let iv := (List.range 8).foldl (fun v n => v.set n (stc.pt.getD n 0 ^^^ ct.getD n 0)) stc.iv
    { st with stc := { stc with ct := ct, iv := iv } }
  | .tdes_cfb8, .decrypt =>
    let ct := (List.range 8).foldl (fun c n => c.set n (c.getD n 0 ^^^ stc.pt.getD n 0)) stc.ct
    let iv := (List.range 8).foldl (fun v n => v.set n (stc.pt.getD n 0 ^^^ ct.getD n 0)) stc.iv
    { st with stc := { stc with ct := ct, iv := iv } }
  | .tdes_ecb, .encrypt =>
    { st with stc := { stc with pt := memcpyAt stc.pt 0 stc.ct stc.ct_len } }
  | .tdes_ecb, .decrypt =>
    { st with stc := { stc with ct := memcpyAt stc.ct 0 stc.pt stc.pt_len } }
  | _, _ => st

/-- Embedding of `acvp_des_output_mct_tc`: build the round object for
the current state (key split in three 8-byte fragments, `iv` unless
ECB, and the input `pt` on encrypt or `ct` on decrypt).  For CFB1
encrypt the source masks `stc->pt[0]` in place, so the possibly
updated test case is returned as well. -/
def acvp_des_output_mct_tc (stc : SymTC) : RoundObj × SymTC :=
  let kb := ACVP_TDES_KEY_BYTE_LEN / 3
  let k1 := acvp_bin_to_hexstr stc.key kb
  let k2 := acvp_bin_to_hexstr (stc.key.drop 8) kb
  let k3 := acvp_bin_to_hexstr (stc.key.drop 16) kb
  let ivF := if stc.cipher ≠ .tdes_ecb then some (acvp_bin_to_hexstr stc.iv stc.iv_len) else none
  if stc.direction = .encrypt then
    if stc.cipher = .tdes_cfb1 then
      let stc := { stc with pt := stc.pt.set 0 (stc.pt.getD 0 0 &&& ACVP_CFB1_BIT_MASK) }
      ({ key1 := k1, key2 := k2, key3 := k3, iv := ivF, pt := some (acvp_bin_to_hexstr stc.pt 1) }, stc)
    else
      ({ key1 := k1, key2 := k2, key3 := k3, iv := ivF,
         pt := some (acvp_bin_to_hexstr stc.pt stc.pt_len) }, stc)
  else
    if stc.cipher = .tdes_cfb1 then
      ({ key1 := k1, key2 := k2, key3 := k3, iv := ivF, ct := some (acvp_bin_to_hexstr stc.ct 1) }, stc)
    else
      ({ key1 := k1, key2 := k2, key3 := k3, iv := ivF,
         ct := some (acvp_bin_to_hexstr stc.ct stc.ct_len) }, stc)

/-- Observable events of one MCT run: a round object filled in before
the inner loop, one DUT invocation (outer index, inner index, and the
`mct_index` value passed), and the key at the end of an outer round. -/
inductive MctEv where
  | roundEmit (i : Nat) (r : RoundObj)
  | dut (i j mctIndex : Nat)
  | roundDone (i : Nat) (key : Bytes)
deriving DecidableEq, Repr

/-- Head of one inner MCT iteration: snapshot `old_iv` at `j = 0`
(`memcpy(old_iv, stc->iv, stc->iv_len)`) and set `stc->mct_index = j`
before the DUT call. -/
def mct_inner_pre (j : Nat) (st : MctState) : MctState :=
  let st := if j = 0 then { st with old_iv := memcpyAt st.old_iv 0 st.stc.iv st.stc.iv_len } else st
  { st with stc := { st.stc with mct_index := j } }

/-- Feed the DUT output into the shift register: `shiftin(nk, stc->ct,
bit_len)` on encrypt, `shiftin(nk, stc->pt, bit_len)` on decrypt. -/
def mct_nk_update (bl : Nat) (st : MctState) : MctState :=
  if st.stc.direction = .encrypt then { st with nk := shiftin st.nk st.stc.ct bl }
  else { st with nk := shiftin st.nk st.stc.pt bl }

/-- The inner MCT loop (`for j in 0..999` of `acvp_des_mct_tc`):
snapshot `old_iv` at `j = 0`, set `mct_index`, call the DUT, feed the
output into `nk` via `shiftin`, and apply the per-mode iteration.  The
DUT is the oracle `handler`, returning the C handler's `int` and the
mutated test case; a non-zero return aborts with
`ACVP_CRYPTO_MODULE_FAIL`.  Recursion is on the remaining iteration
count `fuel`; events accumulate in order. -/
def mct_inner (handler : SymTC → Int × SymTC) (bl i : Nat) :
    Nat → Nat → MctState → Except (ACVP_RESULT × List MctEv) (MctState × List MctEv)
  | _, 0, st => .ok (st, [])
  | j, fuel + 1, st =>
    if (handler (mct_inner_pre j st).stc).1 ≠ 0 then
      .error (.crypto_module_fail, [MctEv.dut i j (mct_inner_pre j st).stc.mct_index])
    else
      match mct_inner handler bl i (j + 1) fuel
          (acvp_des_mct_iterate_tc
            (mct_nk_update bl { mct_inner_pre j st with stc := (handler (mct_inner_pre j st).stc).2 })) with
      | .error (e, evs) => .error (e, MctEv.dut i j (mct_inner_pre j st).stc.mct_index :: evs)
      | .ok (st', evs) => .ok (st', MctEv.dut i j (mct_inner_pre j st).stc.mct_index :: evs)

/-- End-of-outer-round processing of `acvp_des_mct_tc`: XOR `nk` into
the key (`key[0..8] ^= nk[16..24]`, `key[8..16] ^= nk[8..16]`,
`key[16..24] ^= nk[0..8]`), reapply odd parity, copy `iv_ret_after`
into `iv`, re-seed `pt`/`ct` for OFB, and write the final `ct`
(encrypt) or `pt` (decrypt) into the round object.  The key XOR is
the three 8-byte loops of the source. -/
def tdes_mct_key_xor (key nk : Bytes) : Bytes :=
  let key := (List.range 8).foldl (fun k n => k.set n (k.getD n 0 ^^^ nk.getD (16 + n) 0)) key
  let key := (List.range 8).foldl (fun k n => k.set (8 + n) (k.getD (8 + n) 0 ^^^ nk.getD (8 + n) 0)) key
  (List.range 8).foldl (fun k n => k.set (16 + n) (k.getD (16 + n) 0 ^^^ nk.getD n 0)) key

/-- End-of-outer-round processing (see `tdes_mct_key_xor` for the key
XOR pattern): parity, IV copy, OFB re-seed, and the final `ct`/`pt`
written into the round object. -/
def mct_outer_post (robj : RoundObj) (st : MctState) : MctState × RoundObj :=
  let key := acvp_des_set_odd_parity (tdes_mct_key_xor st.stc.key st.nk)
  let stc : SymTC := { st.stc with key := key }
  let stc : SymTC := { stc with iv := memcpyAt stc.iv 0 stc.iv_ret_after 8 }
  let stc : SymTC :=
    if stc.cipher = .tdes_ofb then
      if stc.direction = .encrypt then
        let pt := (List.range 8).foldl (fun p n => p.set n ((st.ptext 0).getD n 0 ^^^ stc.iv_ret.getD n 0)) stc.pt
        { stc with pt := pt }
      else
        let ct := (List.range 8).foldl (fun c n => c.set n ((st.ctext 0).getD n 0 ^^^ stc.iv_ret.getD n 0)) stc.ct
        { stc with ct := ct }
    else stc
  if stc.direction = .encrypt then
    if stc.cipher = .tdes_cfb1 then
      let stc := { stc with ct := stc.ct.set 0 (stc.ct.getD 0 0 &&& ACVP_CFB1_BIT_MASK) }
      ({ st with stc := stc }, { robj with ct := some (acvp_bin_to_hexstr stc.ct 1) })
    else
      ({ st with stc := stc }, { robj with ct := some (acvp_bin_to_hexstr stc.ct stc.ct_len) })
  else
    if stc.cipher = .tdes_cfb1 then
      ({ st with stc := stc }, { robj with pt := some (acvp_bin_to_hexstr stc.pt 1) })
    else
      ({ st with stc := stc }, { robj with pt := some (acvp_bin_to_hexstr stc.pt stc.pt_len) })

/-- The outer MCT loop (`for i in 0..99` of `acvp_des_mct_tc`): emit
the round object, run the inner loop, post-process, append the
completed round object to the results array.  Recursion is on the
remaining round count `fuel`; `i` is the current outer index. -/
def mct_outer (handler : SymTC → Int × SymTC) (bl : Nat) :
    Nat → Nat → MctState → Except (ACVP_RESULT × List MctEv) (MctState × List RoundObj × List MctEv)
  | _, 0, st => .ok (st, [], [])
  | i, fuel + 1, st =>
    match mct_inner handler bl i 0 ACVP_DES_MCT_INNER { st with stc := (acvp_des_output_mct_tc st.stc).2 } with
    | .error (e, evs) => .error (e, MctEv.roundEmit i (acvp_des_output_mct_tc st.stc).1 :: evs)
    | .ok (st2, evs) =>
      match mct_outer handler bl (i + 1) fuel (mct_outer_post (acvp_des_output_mct_tc st.stc).1 st2).1 with
      | .error (e, evs') =>
        .error (e, (MctEv.roundEmit i (acvp_des_output_mct_tc st.stc).1 ::
          (evs ++ [MctEv.roundDone i (mct_outer_post (acvp_des_output_mct_tc st.stc).1 st2).1.stc.key])) ++ evs')
      | .ok (stF, objs, evs') =>
        .ok (stF, (mct_outer_post (acvp_des_output_mct_tc st.stc).1 st2).2 :: objs,
          (MctEv.roundEmit i (acvp_des_output_mct_tc st.stc).1 ::
            (evs ++ [MctEv.roundDone i (mct_outer_post (acvp_des_output_mct_tc st.stc).1 st2).1.stc.key])) ++ evs')

/-- Bit width shifted into `nk` per inner round, from the `switch` at
the top of `acvp_des_mct_tc`; `none` for unsupported ciphers
(`ACVP_UNSUPPORTED_OP`). -/
def desMctBitLen : Cipher → Option Nat
  | .tdes_cbc => some 64
  | .tdes_ofb => some 64
  | .tdes_cfb64 => some 64
  | .tdes_ecb => some 64
  | .tdes_cfb8 => some 8
  | .tdes_cfb1 => some 1
  | .tdes_kw => none

/-- Initial engine state: the file-scope statics `old_iv`, `ptext`,
`ctext` are zero-initialized; the stack register `nk` starts with the
caller-supplied (arbitrary) contents. -/
def mctInitState (nk0 : Bytes) (stc0 : SymTC) : MctState :=
  { stc := stc0, old_iv := List.replicate 8 0,
    ptext := fun _ => List.replicate 8 0, ctext := fun _ => List.replicate 8 0, nk := nk0 }

/-- Embedding of `acvp_des_mct_tc`: select the bit length, then run
100 outer rounds over the zero-initialized globals, returning the
final test case, the `resultsArray` of round objects, and the event
trace. -/
def acvp_des_mct_tc (handler : SymTC → Int × SymTC) (nk0 : Bytes) (stc0 : SymTC) :
    Except (ACVP_RESULT × List MctEv) (SymTC × List RoundObj × List MctEv) :=
  match desMctBitLen stc0.cipher with
  | none => .error (.unsupported_op, [])
  | some bl =>
    match mct_outer handler bl 0 ACVP_DES_MCT_OUTER (mctInitState nk0 stc0) with
    | .error e => .error e
    | .ok (st, objs, evs) => .ok (st.stc, objs, evs)

/-- Event trace of an MCT run, whether it completed or aborted. -/
def mctEvents (r : Except (ACVP_RESULT × List MctEv) (SymTC × List RoundObj × List MctEv)) :
    List MctEv :=
  match r with
  | .error (_, evs) => evs
  | .ok (_, _, evs) => evs

/-- Event list of an inner-loop result. -/
def innerEvents (r : Except (ACVP_RESULT × List MctEv) (MctState × List MctEv)) : List MctEv :=
  match r with
  | .error (_, evs) => evs
  | .ok (_, evs) => evs

/-- Event list of an outer-loop result. -/
def outerEvents (r : Except (ACVP_RESULT × List MctEv) (MctState × List RoundObj × List MctEv)) :
    List MctEv :=
  match r with
  | .error (_, evs) => evs
  | .ok (_, _, evs) => evs

/-- Recognizes a DUT-invocation event. -/
def isDutEv : MctEv → Bool
  | .dut _ _ _ => true
  | _ => false

/-- An end-of-round key event carries a 24-byte key of odd-parity
bytes; other events are exempt. -/
def roundDoneParityOK : MctEv → Bool
  | .roundDone _ k => k.length == 24 && k.all byteHasOddParity
  | _ => true

/-- Record of one completed outer round: the round object as first
emitted (before the inner loop), the key at the end of the round, and
the completed round object appended to `resultsArray`. -/
structure RoundRec where
  emitted : RoundObj
  keyAfter : Bytes
  completed : RoundObj
deriving DecidableEq, Repr

/-- The canonical trace of a completed MCT run: for each outer round,
the round-object emission, then `innerN` DUT invocations with
`mct_index` equal to the inner index, then the end-of-round key. -/
def mctTraceShape (innerN : Nat) : Nat → List RoundRec → List MctEv
  | _, [] => []
  | i, r :: rs =>
    (MctEv.roundEmit i r.emitted ::
      (((List.range' 0 innerN).map (fun j => MctEv.dut i j j)) ++ [MctEv.roundDone i r.keyAfter]))
      ++ mctTraceShape innerN (i + 1) rs

/-- Field check for an emitted round object: an `iv` exactly when the
mode is not ECB, and the input `pt` (encrypt) or `ct` (decrypt) but
not the other. -/
def roundEmitFieldsOK (c : Cipher) (d : Dir) (r : RoundObj) : Bool :=
  (if c = .tdes_ecb then r.iv.isNone else r.iv.isSome) &&
  (match d with
   | .encrypt => r.pt.isSome && r.ct.isNone
   | .decrypt => r.ct.isSome && r.pt.isNone)

/-- The NUL character terminating C strings. -/
def cNul : Char := Char.ofNat 0

/-- Embedding of `strncpy(buf + off, src, n)` for a NUL-free `src`
list: the region `off .. off+n-1` receives `src` truncated to `n`
characters and NUL-padded to exactly `n`. -/
def strncpyAt (buf : List Char) (off : Nat) (src : List Char) (n : Nat) : List Char :=
  buf.take off ++ (src.take n ++ List.replicate (n - (src.take n).length) cNul) ++ buf.drop (off + n)

/-- The C string held in a buffer: characters up to the first NUL. -/
def cstring (buf : List Char) : List Char :=
  buf.takeWhile (fun c => c ≠ cNul)

/-- Modelled from the spec: `ACVP_SYM_KEY_MAX_BYTES` is the
compile-time capacity of the key string buffer (`acvp_lcl.h` not in
the sources); any capacity of at least 48 characters yields the same
observable C string, 64 is used here. -/
def ACVP_SYM_KEY_MAX_BYTES : Nat := 64

/-- Embedding of the key-assembly block of `acvp_des_kat_handler`
(`calloc(ACVP_SYM_KEY_MAX_BYTES + 1)` then three `strncpy` calls):
`key1` is copied to offset 0, `key2` to offset 16 and `key3` to
offset 32 of the hex-character key buffer, 16 characters each
(`ACVP_TDES_KEY_STR_LEN / 3`). -/
def tdes_key_buffer (key1 key2 key3 : List Char) : List Char :=
  strncpyAt
    (strncpyAt
      (strncpyAt (List.replicate (ACVP_SYM_KEY_MAX_BYTES + 1) cNul) 0 key1 (ACVP_TDES_KEY_STR_LEN / 3))
      16 key2 (ACVP_TDES_KEY_STR_LEN / 3))
    32 key3 (ACVP_TDES_KEY_STR_LEN / 3)

/-- Hex decode of an optional input buffer: absent JSON fields leave
the freshly calloc'd (all-zero) buffer untouched, modelled as `[]`. -/
def optBufDecode : Option (List Char) → Option Bytes
  | none => some []
  | some s => acvp_hexstr_to_bin s

/-- Embedding of `acvp_des_init_tc`: allocate and hex-decode the
buffers, then record the lengths — `iv_len` is converted from bits to
bytes, and `pt_len`/`ct_len` are converted to bytes except for CFB1,
which keeps the bit lengths. -/
def acvp_des_init_tc (tc_id : Nat) (test_type : TestType)
    (j_key : List Char) (j_pt j_ct j_iv : Option (List Char))
    (key_len iv_len pt_len ct_len : Nat) (alg_id : Cipher) (dir : Dir) :
    Except ACVP_RESULT SymTC :=
  match acvp_hexstr_to_bin j_key, optBufDecode j_pt, optBufDecode j_ct, optBufDecode j_iv with
  | some key, some pt, some ct, some iv =>
    .ok { tc_id := tc_id, test_type := test_type, cipher := alg_id, direction := dir,
          key_len := key_len, iv_len := (iv_len + 7) / 8,
          pt_len := if alg_id = .tdes_cfb1 then pt_len else (pt_len + 7) / 8,
          ct_len := if alg_id = .tdes_cfb1 then ct_len else (ct_len + 7) / 8,
          mct_index := 0, key := key, pt := pt, ct := ct, iv := iv,
          iv_ret := [], iv_ret_after := [] }
  | _, _, _, _ => .error .invalid_arg

/-- A single AFT test-case response (`{"ct": hex}`, `{"pt": hex}` or
`{"testPassed": bool}`). -/
inductive TcOut where
  | ctOut (hex : List Char)
  | ptOut (hex : List Char)
  | passedOut (b : Bool)
deriving DecidableEq, Repr

/-- Embedding of `acvp_des_output_tc`: encrypt emits `ct` ( `(ct_len +
7) / 8` bytes for CFB1, `ct_len` bytes otherwise); decrypt first
checks the TDES-KW branch (`opt_rv != 0` emits `testPassed` with the
boolean literal `1` used by the source), then emits `pt`
analogously. -/
def acvp_des_output_tc (stc : SymTC) (opt_rv : Int) : TcOut :=
  if stc.direction = .encrypt then
    if stc.cipher = .tdes_cfb1 then .ctOut (acvp_bin_to_hexstr stc.ct ((stc.ct_len + 7) / 8))
    else .ctOut (acvp_bin_to_hexstr stc.ct stc.ct_len)
  else
    if stc.cipher = .tdes_kw ∧ opt_rv ≠ 0 then .passedOut true
    else if stc.cipher = .tdes_cfb1 then .ptOut (acvp_bin_to_hexstr stc.pt ((stc.pt_len + 7) / 8))
    else .ptOut (acvp_bin_to_hexstr stc.pt stc.pt_len)

/-- Embedding of the non-MCT (AFT) branch of `acvp_des_kat_handler`
(the `else` arm after `acvp_des_init_tc` succeeded): call the DUT; on
a non-zero return compare the *stale* `rv` variable — which still
holds the `ACVP_SUCCESS` of `acvp_des_init_tc`, passed here as `rv` —
against `ACVP_CRYPTO_WRAP_FAIL` and abort with
`ACVP_CRYPTO_MODULE_FAIL` when they differ; otherwise produce the
test-case response. -/
def des_aft_process (rv : ACVP_RESULT) (handler : SymTC → Int × SymTC) (stc : SymTC) :
    Except ACVP_RESULT (TcOut × SymTC) :=
  let rcs := handler stc
  if rcs.1 ≠ 0 ∧ rv ≠ .crypto_wrap_fail then .error .crypto_module_fail
  else .ok (acvp_des_output_tc rcs.2 rcs.1, rcs.2)

/-- The heap-buffer view of a test case: each of the six owned
pointers is either NULL (`none`) or an allocation holding bytes. -/
structure SymTCMem where
  key : Option Bytes := none
  pt : Option Bytes := none
  ct : Option Bytes := none
  iv : Option Bytes := none
  iv_ret : Option Bytes := none
  iv_ret_after : Option Bytes := none
deriving DecidableEq, Repr

/-- Buffer view of an initialized test case: `acvp_des_init_tc`
allocates all six buffers, so every pointer is non-NULL. -/
def symTCMemOf (stc : SymTC) : SymTCMem :=
  { key := some stc.key, pt := some stc.pt, ct := some stc.ct,
    iv := some stc.iv, iv_ret := some stc.iv_ret, iv_ret_after := some stc.iv_ret_after }

/-- Embedding of `acvp_des_release_tc`: each non-NULL buffer is passed
to `free` — the returned list records the bytes each allocation holds
at the moment it is deallocated (`free` does not modify them) — and
then the struct itself is `memset` to zero, nulling every pointer. -/
def acvp_des_release_tc (stc : SymTCMem) : SymTCMem × List Bytes :=
  ({ key := none, pt := none, ct := none, iv := none, iv_ret := none, iv_ret_after := none },
   [stc.key, stc.pt, stc.ct, stc.iv, stc.iv_ret, stc.iv_ret_after].filterMap id)

/-- Network action kinds (`ACVP_NET_ACTION`). -/
inductive NETACTION where
  | get
  | getVs
  | getVsResult
  | getVsSample
  | post
  | postLogin
  | postReg
  | postVsResp
  | put
  | putValidation
deriving DecidableEq, Repr

/-- Parse outcome for the HTTP body held in `ctx->curl_buf` when
`inspect_http_code` examines a 401: the body may fail to parse as a
JSON object, parse without a top-level `error` string, or carry one. -/
inductive CurlBody where
  | notObject
  | objNoError
  | objError (err : List Char)
deriving DecidableEq, Repr

/-- The `"JWT expired"` marker (`JWT_EXPIRED_STR`). -/
def JWT_EXPIRED_STR : List Char := "JWT expired".toList

/-- Length of `JWT_EXPIRED_STR` (`JWT_EXPIRED_STR_LEN`). -/
def JWT_EXPIRED_STR_LEN : Nat := 11

/-- The `"JWT signature does not match"` marker (`JWT_INVALID_STR`). -/
def JWT_INVALID_STR : List Char := "JWT signature does not match".toList

/-- Length of `JWT_INVALID_STR` (`JWT_INVALID_STR_LEN`). -/
def JWT_INVALID_STR_LEN : Nat := 28

/-- The `strncmp_s(a, _, b, n, &diff); !diff` test for NUL-free
strings: the first `n` characters agree (comparison stops at the end
of either string). -/
def strncmpZero (a b : List Char) (n : Nat) : Bool :=
  a.take n == b.take n

/-- Embedding of `inspect_http_code`: 200 is `ACVP_SUCCESS`; a 401
whose body parses to an object with an `error` string matching
`"JWT expired"` in its first 11 characters yields `ACVP_JWT_EXPIRED`,
matching `"JWT signature does not match"` in its first 28 characters
yields `ACVP_JWT_INVALID`; everything else keeps the generic
`ACVP_TRANSPORT_FAIL`. -/
def inspect_http_code (code : Nat) (body : CurlBody) : ACVP_RESULT :=
  if code = 200 then .success
  else if code = 401 then
    match body with
    | .notObject => .transport_fail
    | .objNoError => .transport_fail
    | .objError err =>
      if strncmpZero JWT_EXPIRED_STR err JWT_EXPIRED_STR_LEN then .jwt_expired
      else if strncmpZero JWT_INVALID_STR err JWT_INVALID_STR_LEN then .jwt_invalid
      else .transport_fail
  else .transport_fail

/-- Transport context: the stored JWT (tokens are opaque values). -/
structure NetCtx where
  jwt_token : Option Nat := none
deriving DecidableEq, Repr

/-- Server-side oracle for one coordinator run: HTTP status and body of
the first and of the retried call, the outcome of the JWT refresh,
the token a successful refresh stores, and whether serializing the
response document succeeds for `ACVP_NET_POST_VS_RESP`. -/
structure NetOracle where
  code1 : Nat
  body1 : CurlBody
  refreshResult : ACVP_RESULT
  newToken : Nat
  code2 : Nat
  body2 : CurlBody
  serializeOk : Bool := true
deriving DecidableEq, Repr

/-- Observable transport events: one curl request for an action
(recording the JWT held when the request is issued), and the POST
/login performed by `acvp_refresh`. -/
inductive NetEv where
  | call (a : NETACTION) (jwtAtCall : Option Nat)
  | refreshLogin
deriving DecidableEq, Repr

/-- Modelled from the spec: `acvp_refresh` (defined in `acvp.c`, not in
the sources) POSTs /login with the stored credentials — login first
clears the stored JWT — and on success stores the newly issued JWT
(spec section 4.H). -/
def acvp_refresh (o : NetOracle) : ACVP_RESULT × NetCtx :=
  if o.refreshResult = .success then (.success, { jwt_token := some o.newToken })
  else (o.refreshResult, { jwt_token := none })

/-- Embedding of `execute_network_action`: perform the curl call for
the action (for `ACVP_NET_POST_VS_RESP` first serialize the response
document, failing with `ACVP_JSON_ERR`), inspect the HTTP status; on
`ACVP_JWT_EXPIRED` for any action other than login, refresh the
session once and re-execute the same action once, returning the
second inspection result unconditionally; all other non-success
results are returned as-is. -/
def execute_network_action (o : NetOracle) (ctx : NetCtx) (action : NETACTION) :
    ACVP_RESULT × NetCtx × List NetEv :=
  if action = .postVsResp ∧ ¬o.serializeOk then (.json_err, ctx, [])
  else
    let evs := [NetEv.call action ctx.jwt_token]
    let result := inspect_http_code o.code1 o.body1
    if result = .success then (.success, ctx, evs)
    else if result = .jwt_expired ∧ action ≠ .postLogin then
      let rr := acvp_refresh o
      if rr.1 ≠ .success then (rr.1, rr.2, evs ++ [NetEv.refreshLogin])
      else
        (inspect_http_code o.code2 o.body2, rr.2,
         evs ++ [NetEv.refreshLogin, NetEv.call action rr.2.jwt_token])
    else (result, ctx, evs)

/-- Embedding of `acvp_network_action`: map the specific action to its
generic class (setting `check_data` for the POST/PUT kinds), free and
null the stored JWT when the action is login, reject missing data
with `ACVP_NO_DATA`, then run `execute_network_action`. -/
def acvp_network_action (o : NetOracle) (ctx : NetCtx) (action : NETACTION) (has_data : Bool) :
    ACVP_RESULT × NetCtx × List NetEv :=
  let cg : Bool × NETACTION :=
    match action with
    | .get => (false, .get)
    | .getVs => (false, .get)
    | .getVsResult => (false, .get)
    | .getVsSample => (false, .get)
    | .post => (true, .post)
    | .postReg => (true, .post)
    | .postLogin => (true, .postLogin)
    | .postVsResp => (false, .postVsResp)
    | .put => (true, .put)
    | .putValidation => (true, .put)
  let ctx : NetCtx := if action = .postLogin then { jwt_token := none } else ctx
  if cg.1 ∧ ¬has_data then (.no_data, ctx, [])
  else execute_network_action o ctx cg.2

/-- Authentication-header context: the JWT slots and the single-use
flag of `ACVP_CTX`. -/
structure AuthCtx where
  jwt_token : Option Nat := none
  tmp_jwt : Option Nat := none
  use_tmp_jwt : Bool := false
deriving DecidableEq, Repr

/-- HTTP headers appended to the curl slist. -/
inductive Header where
  | contentType
  | bearer (tok : Nat)
deriving DecidableEq, Repr

/-- Embedding of `acvp_add_auth_hdr`: with no usable token the slist is
returned untouched; with the single-use flag set but a NULL temporary
JWT the function logs and returns without appending a header and
without clearing the flag; otherwise the bearer header is built from
the temporary JWT (flag set) or the stored JWT, and the single-use
flag, if set, is cleared at the end. -/
def acvp_add_auth_hdr (ctx : AuthCtx) (slist : List Header) : List Header × AuthCtx :=
  if ctx.jwt_token.isNone ∧ ¬(ctx.tmp_jwt.isSome ∧ ctx.use_tmp_jwt) then (slist, ctx)
  else if ctx.use_tmp_jwt ∧ ctx.tmp_jwt.isNone then (slist, ctx)
  else
    let tok := if ctx.use_tmp_jwt then ctx.tmp_jwt.getD 0 else ctx.jwt_token.getD 0
    let slist := slist ++ [Header.bearer tok]
    let ctx := if ctx.use_tmp_jwt then { ctx with use_tmp_jwt := false } else ctx
    (slist, ctx)

/-- A TDES-KW decrypt AFT test case whose DUT handler reports the
reserved non-zero key-wrap integrity failure. -/
def kwFailStc : SymTC := { tc_id := 1, test_type := .aft, cipher := .tdes_kw, direction := .decrypt }

/-- The spec's CFB1 example: `payloadLen` 5 bits, hex `pt` = `f8`. -/
def cfb1ExampleTC : SymTC :=
  match acvp_des_init_tc 1 .aft "00".toList (some "f8".toList) none
      (some "0011223344556677".toList) 192 64 5 5 .tdes_cfb1 .encrypt with
  | .ok s => s
  | .error _ => {}

/-- A test case initialized from concrete inputs, used to exercise
`acvp_des_release_tc`. -/
def releaseExampleTC : SymTC :=
  match acvp_des_init_tc 7 .aft "abcd".toList none none none 192 0 0 0 .tdes_kw .decrypt with
  | .ok s => s
  | .error _ => {}

/-- C2: the HTTP-status inspector maps 200 to `Success`; a 401 whose
JSON body carries the `error` string `"JWT expired"` to `JwtExpired`;
a 401 whose `error` string starts with `"JWT signature does not
match"` to `JwtInvalid`; and every other status, as well as a 401
with an unparsable body or a missing `error` field, to the generic
`TransportFail`. -/
theorem inspect_http_code_spec :
    (∀ b, inspect_http_code 200 b = .success) ∧
    inspect_http_code 401 (.objError JWT_EXPIRED_STR) = .jwt_expired ∧
    (∀ rest, inspect_http_code 401 (.objError (JWT_INVALID_STR ++ rest)) = .jwt_invalid) ∧
    (∀ code b, code ≠ 200 → code ≠ 401 → inspect_http_code code b = .transport_fail) ∧
    inspect_http_code 401 .notObject = .transport_fail ∧
    inspect_http_code 401 .objNoError = .transport_fail := by
  refine ⟨fun b => by simp [inspect_http_code], by decide, fun rest => ?_, fun code b h1 h2 => ?_, by decide, by decide⟩
  · have hlen : JWT_INVALID_STR_LEN ≤ JWT_INVALID_STR.length := by decide
    have htake : (JWT_INVALID_STR ++ rest).take JWT_INVALID_STR_LEN = JWT_INVALID_STR.take JWT_INVALID_STR_LEN := by
      rw [List.take_append_of_le_length hlen]
    have hexp : strncmpZero JWT_EXPIRED_STR (JWT_INVALID_STR ++ rest) JWT_EXPIRED_STR_LEN = false := by
      have h11 : (JWT_INVALID_STR ++ rest).take JWT_EXPIRED_STR_LEN
          = JWT_INVALID_STR.take JWT_EXPIRED_STR_LEN := by
        rw [List.take_append_of_le_length (by decide)]
      simp only [strncmpZero, h11]
      decide
    have hinv : strncmpZero JWT_INVALID_STR (JWT_INVALID_STR ++ rest) JWT_INVALID_STR_LEN = true := by
      simp only [strncmpZero, htake]
      simp
    simp [inspect_http_code, hexp, hinv]
  · simp [inspect_http_code, h1, h2]

/-- Witness for C2 at concrete statuses and bodies. -/
theorem inspect_http_code_spec_witness :
    inspect_http_code 200 .objNoError = .success ∧
    inspect_http_code 401 (.objError (JWT_INVALID_STR ++ [' '])) = .jwt_invalid ∧
    inspect_http_code 404 .objNoError = .transport_fail :=
  ⟨inspect_http_code_spec.1 _, inspect_http_code_spec.2.2.1 [' '],
   inspect_http_code_spec.2.2.2.1 404 _ (by decide) (by decide)⟩

/-- C10: building the Authorization header with the single-use flag
set and a non-null temporary JWT consumes the temporary JWT and
clears the flag; with the flag set and a null temporary JWT no header
is appended at all — whatever the regular JWT holds — and the flag
stays set. -/
theorem add_auth_hdr_tmp_jwt_behavior (ctx : AuthCtx) (slist : List Header) (t : Nat) :
    (ctx.use_tmp_jwt = true → ctx.tmp_jwt = some t →
      acvp_add_auth_hdr ctx slist = (slist ++ [Header.bearer t], { ctx with use_tmp_jwt := false })) ∧
    (ctx.use_tmp_jwt = true → ctx.tmp_jwt = none →
      acvp_add_auth_hdr ctx slist = (slist, ctx)) := by
  constructor
  · intro h1 h2
    simp [acvp_add_auth_hdr, h1, h2]
  · intro h1 h2
    cases h : ctx.jwt_token <;> simp [acvp_add_auth_hdr, h1, h2, h]

/-- Witness for C10 at concrete contexts. -/
theorem add_auth_hdr_tmp_jwt_behavior_witness :
    acvp_add_auth_hdr { jwt_token := some 3, tmp_jwt := some 9, use_tmp_jwt := true } [] =
      ([Header.bearer 9], { jwt_token := some 3, tmp_jwt := some 9, use_tmp_jwt := false }) ∧
    acvp_add_auth_hdr { jwt_token := some 3, tmp_jwt := none, use_tmp_jwt := true } [] =
      ([], { jwt_token := some 3, tmp_jwt := none, use_tmp_jwt := true }) :=
  ⟨(add_auth_hdr_tmp_jwt_behavior { jwt_token := some 3, tmp_jwt := some 9, use_tmp_jwt := true } [] 9).1 rfl rfl,
   (add_auth_hdr_tmp_jwt_behavior { jwt_token := some 3, tmp_jwt := none, use_tmp_jwt := true } [] 0).2 rfl rfl⟩

/-- C9: dispatching a login action frees and nulls the stored JWT
before the request executes — every curl call in a login dispatch is
issued with a null JWT — and the context that comes back from a login
attempt, successful or not, holds no JWT either. -/
theorem network_action_login_clears_jwt (o : NetOracle) (ctx : NetCtx) (hd : Bool) :
    ((acvp_network_action o ctx .postLogin hd).2.2).all
      (fun ev => match ev with
        | NetEv.call _ j => j.isNone
        | NetEv.refreshLogin => true) = true ∧
    (acvp_network_action o ctx .postLogin hd).2.1.jwt_token = none := by
  cases hd <;>
    simp only [acvp_network_action, execute_network_action] <;>
    constructor <;>
    simp <;>
    split <;>
    simp

/-- C1: for a non-login action whose first inspection yields
`JwtExpired`, the coordinator performs exactly one refresh (one POST
/login), re-executes the same action exactly once, and returns the
second inspection result as-is — even when that retry again yields
`JwtExpired`, no further refresh happens; a login action that yields
`JwtExpired` is neither refreshed nor retried. -/
theorem execute_network_action_refresh_once (o : NetOracle) (ctx : NetCtx) (a : NETACTION)
    (ha : a ≠ .postLogin)
    (hser : a = .postVsResp → o.serializeOk = true)
    (hexp : inspect_http_code o.code1 o.body1 = .jwt_expired)
    (href : o.refreshResult = .success) :
    execute_network_action o ctx a =
      (inspect_http_code o.code2 o.body2, { jwt_token := some o.newToken },
       [NetEv.call a ctx.jwt_token, NetEv.refreshLogin, NetEv.call a (some o.newToken)]) ∧
    (execute_network_action o ctx a).2.2.count NetEv.refreshLogin = 1 ∧
    (execute_network_action o ctx a).2.2.countP
      (fun ev => match ev with
        | NetEv.call a' _ => a' == a
        | NetEv.refreshLogin => false) = 2 ∧
    (∀ (o' : NetOracle) (ctx' : NetCtx),
      inspect_http_code o'.code1 o'.body1 = .jwt_expired →
      execute_network_action o' ctx' .postLogin =
        (.jwt_expired, ctx', [NetEv.call .postLogin ctx'.jwt_token])) := by
  have hser' : ¬(a = .postVsResp ∧ ¬o.serializeOk = true) := by
    rintro ⟨h1, h2⟩
    exact h2 (hser h1)
  have hmain : execute_network_action o ctx a =
      (inspect_http_code o.code2 o.body2, { jwt_token := some o.newToken },
       [NetEv.call a ctx.jwt_token, NetEv.refreshLogin, NetEv.call a (some o.newToken)]) := by
    simp [execute_network_action, hser', hexp, ha, acvp_refresh, href]
    exact hser
  refine ⟨hmain, ?_, ?_, ?_⟩
  · rw [hmain]
    simp [List.count_cons]
  · rw [hmain]
    simp [List.countP_cons]
  · intro o' ctx' hexp'
    simp [execute_network_action, hexp', acvp_refresh]

/-- Witness for C1: a POST whose first call comes back 401 "JWT
expired" and whose retry comes back 401 "JWT expired" again — one
refresh, two POSTs, and the second result is returned. -/
theorem execute_network_action_refresh_once_witness :
    execute_network_action
        { code1 := 401, body1 := .objError JWT_EXPIRED_STR, refreshResult := .success,
          newToken := 5, code2 := 401, body2 := .objError JWT_EXPIRED_STR }
        { jwt_token := some 3 } .post =
      (.jwt_expired, { jwt_token := some 5 },
       [NetEv.call .post (some 3), NetEv.refreshLogin, NetEv.call .post (some 5)]) ∧
    execute_network_action
        { code1 := 401, body1 := .objError JWT_EXPIRED_STR, refreshResult := .success,
          newToken := 5, code2 := 401, body2 := .objError JWT_EXPIRED_STR }
        { jwt_token := some 3 } .postLogin =
      (.jwt_expired, { jwt_token := some 3 },
       [NetEv.call .postLogin (some 3)]) :=
  ⟨(execute_network_action_refresh_once
      { code1 := 401, body1 := .objError JWT_EXPIRED_STR, refreshResult := .success,
        newToken := 5, code2 := 401, body2 := .objError JWT_EXPIRED_STR }
      { jwt_token := some 3 } .post (by decide) (fun _ => rfl) (by decide) rfl).1,
   (execute_network_action_refresh_once
      { code1 := 401, body1 := .objError JWT_EXPIRED_STR, refreshResult := .success,
        newToken := 5, code2 := 401, body2 := .objError JWT_EXPIRED_STR }
      { jwt_token := some 3 } .post (by decide) (fun _ => rfl) (by decide) rfl).2.2.2
     { code1 := 401, body1 := .objError JWT_EXPIRED_STR, refreshResult := .success,
       newToken := 5, code2 := 401, body2 := .objError JWT_EXPIRED_STR }
     { jwt_token := some 3 } (by decide)⟩

/-- C6 (code evaluation at the failing input): when the DUT returns a
non-zero value for a TDES-KW decrypt test case, `acvp_des_output_tc`
emits `testPassed: true` — the boolean literal `1` — not `false`; and
the AFT branch of `acvp_des_kat_handler` never reaches that output at
all, because it compares the stale `rv` (still `ACVP_SUCCESS` from
init) against `ACVP_CRYPTO_WRAP_FAIL` and aborts the vector set with
`ACVP_CRYPTO_MODULE_FAIL`. -/
theorem kw_decrypt_failure_behavior :
    acvp_des_output_tc kwFailStc 1 = .passedOut true ∧
    des_aft_process .success (fun s => (1, s)) kwFailStc = .error .crypto_module_fail := by
  constructor <;> rfl

/-- Hex output length: two characters per requested byte. -/
theorem length_acvp_bin_to_hexstr (src : Bytes) (n : Nat) :
    (acvp_bin_to_hexstr src n).length = 2 * n := by
  induction n with
  | zero => rfl
  | succ m ih =>
    have hstep : acvp_bin_to_hexstr src (m + 1)
        = acvp_bin_to_hexstr src m ++ [nibbleChar (src.getD m 0 / 16), nibbleChar (src.getD m 0)] := by
      unfold acvp_bin_to_hexstr
      rw [List.range_succ, List.flatMap_append]
      simp
    rw [hstep, List.length_append, ih]
    simp only [List.length_cons, List.length_nil]
    omega

/-- C7: for CFB1, `acvp_des_init_tc` stores the payload lengths in
bits — `pt_len` and `ct_len` are not divided by 8 — so the DUT sees
the bit lengths, and `acvp_des_output_tc` then emits `(len + 7) / 8`
bytes of the output buffer, i.e. `2 * ((len + 7) / 8)` hex
characters. -/
theorem cfb1_bit_length_semantics (tc_id : Nat) (tt : TestType) (jk : List Char)
    (jp jc ji : Option (List Char)) (kl il pl cl : Nat) (dir : Dir) (stc : SymTC)
    (h : acvp_des_init_tc tc_id tt jk jp jc ji kl il pl cl .tdes_cfb1 dir = .ok stc) :
    stc.pt_len = pl ∧ stc.ct_len = cl ∧
    (stc.direction = .encrypt →
      acvp_des_output_tc stc 0 = .ctOut (acvp_bin_to_hexstr stc.ct ((stc.ct_len + 7) / 8)) ∧
      (acvp_bin_to_hexstr stc.ct ((stc.ct_len + 7) / 8)).length = 2 * ((stc.ct_len + 7) / 8)) ∧
    (stc.direction = .decrypt →
      acvp_des_output_tc stc 0 = .ptOut (acvp_bin_to_hexstr stc.pt ((stc.pt_len + 7) / 8)) ∧
      (acvp_bin_to_hexstr stc.pt ((stc.pt_len + 7) / 8)).length = 2 * ((stc.pt_len + 7) / 8)) := by
  unfold acvp_des_init_tc at h
  split at h
  case _ key pt ct iv heqk heqp heqc heqi =>
    rw [Except.ok.injEq] at h
    subst h
    refine ⟨by simp, by simp, fun hdir => ⟨?_, length_acvp_bin_to_hexstr _ _⟩,
            fun hdir => ⟨?_, length_acvp_bin_to_hexstr _ _⟩⟩
    · have hd : dir = Dir.encrypt := hdir
      simp [acvp_des_output_tc, hd]
    · have hd : dir = Dir.decrypt := hdir
      simp [acvp_des_output_tc, hd]
  case _ =>
    cases h

/-- Witness for C7: the example test case keeps `pt_len = 5` bits and
its response hex has exactly `2 * ((5 + 7) / 8) = 2` characters (one
byte). -/
theorem cfb1_bit_length_semantics_witness :
    cfb1ExampleTC.pt_len = 5 ∧ cfb1ExampleTC.ct_len = 5 ∧
    (acvp_bin_to_hexstr cfb1ExampleTC.ct ((cfb1ExampleTC.ct_len + 7) / 8)).length = 2 :=
  ⟨(cfb1_bit_length_semantics 1 .aft "00".toList (some "f8".toList) none
      (some "0011223344556677".toList) 192 64 5 5 .encrypt cfb1ExampleTC rfl).1,
   (cfb1_bit_length_semantics 1 .aft "00".toList (some "f8".toList) none
      (some "0011223344556677".toList) 192 64 5 5 .encrypt cfb1ExampleTC rfl).2.1,
   ((cfb1_bit_length_semantics 1 .aft "00".toList (some "f8".toList) none
      (some "0011223344556677".toList) 192 64 5 5 .encrypt cfb1ExampleTC rfl).2.2.1 rfl).2⟩

/-- C8 counterexample: releasing a test case previously initialized by
init does not zero the buffer contents — the key bytes decoded from
hex `"abcd"` are still `[0xab, 0xcd]` when the allocation is freed. -/
theorem release_zeroize_counterexample :
    ¬(((acvp_des_release_tc (symTCMemOf releaseExampleTC)).2).all
        (fun b => b.all (fun x => x == 0)) = true) := by
  decide

/-- C8 (amended): releasing a test case frees every one of the six
owned buffers and zeroes the test-case struct itself (every pointer
becomes NULL), but the freed buffers' contents are handed to `free`
unchanged, not zeroed. -/
theorem release_frees_and_zeroes_struct (tc_id : Nat) (tt : TestType) (jk : List Char)
    (jp jc ji : Option (List Char)) (kl il pl cl : Nat) (alg : Cipher) (dir : Dir) (stc : SymTC)
    (_h : acvp_des_init_tc tc_id tt jk jp jc ji kl il pl cl alg dir = .ok stc) :
    acvp_des_release_tc (symTCMemOf stc) =
      ({ key := none, pt := none, ct := none, iv := none, iv_ret := none, iv_ret_after := none },
       [stc.key, stc.pt, stc.ct, stc.iv, stc.iv_ret, stc.iv_ret_after]) := by
  simp [acvp_des_release_tc, symTCMemOf]

/-- Witness for C8's amended statement at the concrete initialized
test case: the struct comes back zeroed and the six freed buffers
hold their original bytes. -/
theorem release_frees_and_zeroes_struct_witness :
    acvp_des_release_tc (symTCMemOf releaseExampleTC) =
      ({ key := none, pt := none, ct := none, iv := none, iv_ret := none, iv_ret_after := none },
       [releaseExampleTC.key, releaseExampleTC.pt, releaseExampleTC.ct,
        releaseExampleTC.iv, releaseExampleTC.iv_ret, releaseExampleTC.iv_ret_after]) :=
  release_frees_and_zeroes_struct 7 .aft "abcd".toList none none none 192 0 0 0
    .tdes_kw .decrypt releaseExampleTC rfl

/-- A `takeWhile` passes over a block whose elements all satisfy the
predicate. -/
theorem takeWhile_append_all (p : Char → Bool) (xs ys : List Char)
    (h : ∀ x ∈ xs, p x = true) :
    (xs ++ ys).takeWhile p = xs ++ ys.takeWhile p := by
  induction xs with
  | nil => rfl
  | cons a t ih =>
    have ha := h a (List.mem_cons_self a t)
    have iht := ih (fun x hx => h x (List.mem_cons_of_mem a hx))
    simp [List.takeWhile_cons, ha, iht]

/-- Hex decoding distributes over the concatenation of an even-length
block with any suffix. -/
theorem hexstr_to_bin_append (a b : List Char) (n : Nat) (h : a.length = 2 * n) :
    acvp_hexstr_to_bin (a ++ b) =
      match acvp_hexstr_to_bin a, acvp_hexstr_to_bin b with
      | some x, some y => some (x ++ y)
      | _, _ => none := by
  induction n generalizing a with
  | zero =>
    have ha : a = [] := List.eq_nil_of_length_eq_zero (by omega)
    subst ha
    cases hb : acvp_hexstr_to_bin b <;> simp [acvp_hexstr_to_bin, hb]
  | succ m ih =>
    cases a with
    | nil => simp at h
    | cons c1 t =>
      cases t with
      | nil =>
        simp at h
        omega
      | cons c2 rest =>
        have hr : rest.length = 2 * m := by
          simp at h
          omega
        cases hv1 : hexDigitVal c1 <;> cases hv2 : hexDigitVal c2 <;>
          cases hra : acvp_hexstr_to_bin rest <;> cases hb : acvp_hexstr_to_bin b <;>
          simp [acvp_hexstr_to_bin, hv1, hv2, ih rest hr, hra, hb]

/-- Closed form of the assembled key buffer for three 16-character
fragments. -/
theorem tdes_key_buffer_closed (k1 k2 k3 : List Char)
    (h1 : k1.length = 16) (h2 : k2.length = 16) (h3 : k3.length = 16) :
    tdes_key_buffer k1 k2 k3 = k1 ++ (k2 ++ (k3 ++ List.replicate 17 cNul)) := by
  have t1 : k1.take 16 = k1 := List.take_of_length_le (by omega)
  have t2 : k2.take 16 = k2 := List.take_of_length_le (by omega)
  have t3 : k3.take 16 = k3 := List.take_of_length_le (by omega)
  have step1 : strncpyAt (List.replicate (ACVP_SYM_KEY_MAX_BYTES + 1) cNul) 0 k1 (ACVP_TDES_KEY_STR_LEN / 3)
      = k1 ++ List.replicate 49 cNul := by
    show strncpyAt (List.replicate 65 cNul) 0 k1 16 = k1 ++ List.replicate 49 cNul
    unfold strncpyAt
    rw [t1, h1]
    simp [List.drop_replicate]
  have step2 : strncpyAt (k1 ++ List.replicate 49 cNul) 16 k2 (ACVP_TDES_KEY_STR_LEN / 3)
      = k1 ++ (k2 ++ List.replicate 33 cNul) := by
    show strncpyAt (k1 ++ List.replicate 49 cNul) 16 k2 16 = k1 ++ (k2 ++ List.replicate 33 cNul)
    unfold strncpyAt
    rw [t2, h2, List.take_left' h1, List.drop_append_eq_append_drop,
        List.drop_eq_nil_of_le (by omega), List.drop_replicate]
    simp [h1]
  have step3 : strncpyAt (k1 ++ (k2 ++ List.replicate 33 cNul)) 32 k3 (ACVP_TDES_KEY_STR_LEN / 3)
      = k1 ++ (k2 ++ (k3 ++ List.replicate 17 cNul)) := by
    show strncpyAt (k1 ++ (k2 ++ List.replicate 33 cNul)) 32 k3 16
        = k1 ++ (k2 ++ (k3 ++ List.replicate 17 cNul))
    unfold strncpyAt
    rw [t3, h3, List.take_append_eq_append_take, List.take_of_length_le (by omega),
        List.take_left' (by omega : (k2 : List Char).length = 32 - k1.length),
        List.drop_append_eq_append_drop, List.drop_eq_nil_of_le (by omega),
        List.drop_append_eq_append_drop, List.drop_eq_nil_of_le (by omega),
        List.drop_replicate]
    simp [h1, h2]
  unfold tdes_key_buffer
  rw [step1, step2, step3]

/-- C3: `acvp_des_kat_handler` assembles the TDES key by placing the
16-hex-character fragment `key1` at offset 0, `key2` at offset 16 and
`key3` at offset 32 of the key buffer — key2 sits at offset 16, not 8
— so the C string handed to init is exactly `key1 ++ key2 ++ key3`,
and its hex decode is the concatenation of the three decoded 8-byte
fragments. -/
theorem tdes_key_fragment_offsets (k1 k2 k3 : List Char)
    (h1 : k1.length = 16) (h2 : k2.length = 16) (h3 : k3.length = 16)
    (n1 : cNul ∉ k1) (n2 : cNul ∉ k2) (n3 : cNul ∉ k3) :
    (tdes_key_buffer k1 k2 k3).take 16 = k1 ∧
    ((tdes_key_buffer k1 k2 k3).drop 16).take 16 = k2 ∧
    ((tdes_key_buffer k1 k2 k3).drop 32).take 16 = k3 ∧
    cstring (tdes_key_buffer k1 k2 k3) = k1 ++ (k2 ++ k3) ∧
    (∀ b1 b2 b3, acvp_hexstr_to_bin k1 = some b1 → acvp_hexstr_to_bin k2 = some b2 →
      acvp_hexstr_to_bin k3 = some b3 →
      acvp_hexstr_to_bin (cstring (tdes_key_buffer k1 k2 k3)) = some (b1 ++ (b2 ++ b3))) := by
  have hbuf := tdes_key_buffer_closed k1 k2 k3 h1 h2 h3
  have hcstr : cstring (tdes_key_buffer k1 k2 k3) = k1 ++ (k2 ++ k3) := by
    rw [hbuf]
    unfold cstring
    rw [takeWhile_append_all _ k1 _ (fun x hx => by
          simp only [decide_eq_true_eq]
          exact fun he => n1 (he ▸ hx)),
        takeWhile_append_all _ k2 _ (fun x hx => by
          simp only [decide_eq_true_eq]
          exact fun he => n2 (he ▸ hx)),
        takeWhile_append_all _ k3 _ (fun x hx => by
          simp only [decide_eq_true_eq]
          exact fun he => n3 (he ▸ hx)),
        List.takeWhile_replicate]
    simp
  refine ⟨?_, ?_, ?_, hcstr, ?_⟩
  · rw [hbuf, List.take_append_eq_append_take, List.take_of_length_le (by omega)]
    simp [h1]
  · rw [hbuf, List.drop_append_eq_append_drop, List.drop_eq_nil_of_le (by omega), h1]
    simp only [Nat.sub_self, List.drop_zero, List.nil_append]
    rw [List.take_append_eq_append_take, List.take_of_length_le (by omega)]
    simp [h2]
  · rw [hbuf, List.drop_append_eq_append_drop, List.drop_eq_nil_of_le (by omega), h1]
    simp only [List.nil_append]
    rw [List.drop_append_eq_append_drop, List.drop_eq_nil_of_le (by omega), h2]
    simp only [List.nil_append]
    rw [show (32 : Nat) - 16 - 16 = 0 by omega, List.drop_zero,
        List.take_append_eq_append_take, List.take_of_length_le (by omega)]
    simp [h3]
  · intro b1 b2 b3 d1 d2 d3
    rw [hcstr]
    rw [hexstr_to_bin_append k1 (k2 ++ k3) 8 (by omega), d1,
        hexstr_to_bin_append k2 k3 8 (by omega), d2, d3]

/-- Witness for C3 at the spec scenario's key fragments. -/
theorem tdes_key_fragment_offsets_witness :
    (tdes_key_buffer "0123456789abcdef".toList "23456789abcdef01".toList "45678923456789ab".toList).take 16
      = "0123456789abcdef".toList ∧
    ((tdes_key_buffer "0123456789abcdef".toList "23456789abcdef01".toList "45678923456789ab".toList).drop 16).take 16
      = "23456789abcdef01".toList ∧
    ((tdes_key_buffer "0123456789abcdef".toList "23456789abcdef01".toList "45678923456789ab".toList).drop 32).take 16
      = "45678923456789ab".toList ∧
    acvp_hexstr_to_bin
        (cstring (tdes_key_buffer "0123456789abcdef".toList "23456789abcdef01".toList "45678923456789ab".toList))
      = some ([1, 35, 69, 103, 137, 171, 205, 239] ++
              ([35, 69, 103, 137, 171, 205, 239, 1] ++ [69, 103, 137, 35, 69, 103, 137, 171])) := by
  have T := tdes_key_fragment_offsets
    "0123456789abcdef".toList "23456789abcdef01".toList "45678923456789ab".toList
    (by decide) (by decide) (by decide) (by decide) (by decide) (by decide)
  exact ⟨T.1, T.2.1, T.2.2.1, T.2.2.2.2 _ _ _ (by decide) (by decide) (by decide)⟩

/-- A fold of length-preserving steps preserves the length. -/
theorem foldl_length_preserved {β : Type} (step : Bytes → β → Bytes)
    (hstep : ∀ k b, (step k b).length = k.length) :
    ∀ (idx : List β) (l : Bytes), (idx.foldl step l).length = l.length := by
  intro idx
  induction idx with
  | nil => intro l; rfl
  | cons a t ih =>
    intro l
    rw [List.foldl_cons, ih, hstep]

/-- The end-of-round key XOR preserves the key length. -/
theorem length_tdes_mct_key_xor (key nk : Bytes) :
    (tdes_mct_key_xor key nk).length = key.length := by
  unfold tdes_mct_key_xor
  rw [foldl_length_preserved (fun k n => k.set (16 + n) (k.getD (16 + n) 0 ^^^ nk.getD n 0))
        (fun k b => List.length_set k (16 + b) _),
      foldl_length_preserved (fun k n => k.set (8 + n) (k.getD (8 + n) 0 ^^^ nk.getD (8 + n) 0))
        (fun k b => List.length_set k (8 + b) _),
      foldl_length_preserved (fun k n => k.set n (k.getD n 0 ^^^ nk.getD (16 + n) 0))
        (fun k b => List.length_set k b _)]

/-- Re-applying odd parity preserves the key length. -/
theorem length_set_odd_parity (ks : Bytes) :
    (acvp_des_set_odd_parity ks).length = ks.length := by
  simp [acvp_des_set_odd_parity]

/-- Every entry of the 256-entry table has odd parity. -/
theorem odd_parity_entries_odd : odd_parity.all byteHasOddParity = true := by decide

/-- Any table lookup yields a byte of odd parity. -/
theorem oddParityLookup_parity (b : Nat) : byteHasOddParity (oddParityLookup b) = true := by
  have hlen : odd_parity.length = 256 := by decide
  have hlt : b % 256 < odd_parity.length := by
    rw [hlen]
    exact Nat.mod_lt _ (by norm_num)
  unfold oddParityLookup
  rw [List.getD_eq_getElem _ _ hlt]
  exact List.all_eq_true.mp odd_parity_entries_odd _ (List.getElem_mem hlt)

/-- After `acvp_des_set_odd_parity`, every key byte has odd parity. -/
theorem set_odd_parity_all_odd (ks : Bytes) :
    (acvp_des_set_odd_parity ks).all byteHasOddParity = true := by
  unfold acvp_des_set_odd_parity
  rw [List.all_map]
  exact List.all_eq_true.mpr (fun x _ => oddParityLookup_parity x)

/-- The per-mode iteration never touches the cipher, direction or key. -/
theorem iterate_tc_preserves (st : MctState) :
    (acvp_des_mct_iterate_tc st).stc.cipher = st.stc.cipher ∧
    (acvp_des_mct_iterate_tc st).stc.direction = st.stc.direction ∧
    (acvp_des_mct_iterate_tc st).stc.key = st.stc.key := by
  unfold acvp_des_mct_iterate_tc
  rcases h1 : st.stc.cipher <;> rcases h2 : st.stc.direction <;> simp [h1, h2]

/-- Emitting the round object never changes the cipher, the direction
or the key of the test case. -/
theorem output_mct_tc_preserves (stc : SymTC) :
    ((acvp_des_output_mct_tc stc).2).cipher = stc.cipher ∧
    ((acvp_des_output_mct_tc stc).2).direction = stc.direction ∧
    ((acvp_des_output_mct_tc stc).2).key = stc.key := by
  unfold acvp_des_output_mct_tc
  by_cases hd : stc.direction = .encrypt <;> by_cases hc : stc.cipher = .tdes_cfb1 <;>
    simp [hd, hc]

/-- The pre-DUT bookkeeping of an inner iteration only touches
`old_iv` and `mct_index`. -/
theorem mct_inner_pre_preserves (j : Nat) (st : MctState) :
    (mct_inner_pre j st).stc.cipher = st.stc.cipher ∧
    (mct_inner_pre j st).stc.direction = st.stc.direction ∧
    (mct_inner_pre j st).stc.key = st.stc.key ∧
    (mct_inner_pre j st).stc.mct_index = j := by
  unfold mct_inner_pre
  by_cases h : j = 0 <;> simp [h]

/-- The shift-register update never touches the test case. -/
theorem mct_nk_update_stc (bl : Nat) (st : MctState) : (mct_nk_update bl st).stc = st.stc := by
  unfold mct_nk_update
  split <;> rfl

/-- The end-of-round state: the key is the XOR pattern followed by the
parity table, and the cipher and direction are untouched. -/
theorem mct_outer_post_fields (r : RoundObj) (st : MctState) :
    ((mct_outer_post r st).1).stc.key = acvp_des_set_odd_parity (tdes_mct_key_xor st.stc.key st.nk) ∧
    ((mct_outer_post r st).1).stc.cipher = st.stc.cipher ∧
    ((mct_outer_post r st).1).stc.direction = st.stc.direction := by
  unfold mct_outer_post
  by_cases h1 : st.stc.cipher = .tdes_ofb <;> by_cases h2 : st.stc.direction = .encrypt <;>
    by_cases h3 : st.stc.cipher = .tdes_cfb1 <;> simp [h1, h2, h3]

/-- Every event of the inner loop is a DUT invocation. -/
theorem mct_inner_events_dut (handler : SymTC → Int × SymTC) (bl i : Nat) :
    ∀ (fuel j : Nat) (st : MctState),
      (innerEvents (mct_inner handler bl i j fuel st)).all isDutEv = true := by
  intro fuel
  induction fuel with
  | zero => intro j st; rfl
  | succ m ih =>
    intro j st
    simp only [mct_inner]
    by_cases h0 : (handler (mct_inner_pre j st).stc).1 ≠ 0
    · rw [if_pos h0]
      simp [innerEvents, isDutEv]
    · rw [if_neg h0]
      have hih := ih (j + 1)
        (acvp_des_mct_iterate_tc
          (mct_nk_update bl { mct_inner_pre j st with stc := (handler (mct_inner_pre j st).stc).2 }))
      cases hrec : mct_inner handler bl i (j + 1) m
          (acvp_des_mct_iterate_tc
            (mct_nk_update bl { mct_inner_pre j st with stc := (handler (mct_inner_pre j st).stc).2 })) with
      | error e =>
        rw [hrec] at hih
        obtain ⟨e1, evs⟩ := e
        simp only [innerEvents] at hih
        simp [innerEvents, isDutEv, hih]
      | ok p =>
        rw [hrec] at hih
        obtain ⟨st', evs⟩ := p
        simp only [innerEvents] at hih
        simp [innerEvents, isDutEv, hih]

/-- The inner loop preserves the key length when the DUT does. -/
theorem mct_inner_key_length (handler : SymTC → Int × SymTC) (bl i : Nat)
    (hlen : ∀ s, ((handler s).2).key.length = s.key.length) :
    ∀ (fuel j : Nat) (st st' : MctState) (evs : List MctEv),
      mct_inner handler bl i j fuel st = .ok (st', evs) →
      st'.stc.key.length = st.stc.key.length := by
  intro fuel
  induction fuel with
  | zero =>
    intro j st st' evs h
    simp only [mct_inner] at h
    rw [Except.ok.injEq, Prod.mk.injEq] at h
    rw [← h.1]
  | succ m ih =>
    intro j st st' evs h
    simp only [mct_inner] at h
    by_cases h0 : (handler (mct_inner_pre j st).stc).1 ≠ 0
    · rw [if_pos h0] at h
      exact absurd h (by simp)
    · rw [if_neg h0] at h
      cases hrec : mct_inner handler bl i (j + 1) m
          (acvp_des_mct_iterate_tc
            (mct_nk_update bl { mct_inner_pre j st with stc := (handler (mct_inner_pre j st).stc).2 })) with
      | error e =>
        rw [hrec] at h
        obtain ⟨e1, evs1⟩ := e
        exact absurd h (by simp)
      | ok p =>
        rw [hrec] at h
        obtain ⟨stI, evsI⟩ := p
        rw [Except.ok.injEq, Prod.mk.injEq] at h
        have hkey := ih (j + 1)
          (acvp_des_mct_iterate_tc
            (mct_nk_update bl { mct_inner_pre j st with stc := (handler (mct_inner_pre j st).stc).2 }))
          stI evsI hrec
        rw [← h.1, hkey,
            (iterate_tc_preserves _).2.2,
            mct_nk_update_stc]
        have hpre := (mct_inner_pre_preserves j st).2.2.1
        simp only []
        rw [hlen ((mct_inner_pre j st).stc), hpre]

/-- Promotion from DUT-only event lists to the parity predicate. -/
theorem all_roundDone_of_all_dut (l : List MctEv) (h : l.all isDutEv = true) :
    l.all roundDoneParityOK = true := by
  rw [List.all_eq_true] at h ⊢
  intro x hx
  cases x with
  | roundEmit i r => rfl
  | dut i j m => rfl
  | roundDone i k => exact absurd (h _ hx) (by simp [isDutEv])

/-- Every `roundDone` event of the outer loop carries a 24-byte key
whose bytes all have odd parity, provided the DUT preserves the key
length and the key enters with 24 bytes. -/
theorem mct_outer_parity (handler : SymTC → Int × SymTC) (bl : Nat)
    (hlen : ∀ s, ((handler s).2).key.length = s.key.length) :
    ∀ (fuel i : Nat) (st : MctState), st.stc.key.length = 24 →
      (outerEvents (mct_outer handler bl i fuel st)).all roundDoneParityOK = true := by
  intro fuel
  induction fuel with
  | zero => intro i st h24; rfl
  | succ m ih =>
    intro i st h24
    simp only [mct_outer]
    cases hrecI : mct_inner handler bl i 0 ACVP_DES_MCT_INNER
        { st with stc := (acvp_des_output_mct_tc st.stc).2 } with
    | error e =>
      obtain ⟨e1, evs⟩ := e
      have hd := mct_inner_events_dut handler bl i ACVP_DES_MCT_INNER 0
        { st with stc := (acvp_des_output_mct_tc st.stc).2 }
      rw [hrecI] at hd
      simp only [innerEvents] at hd
      simp [outerEvents, roundDoneParityOK, all_roundDone_of_all_dut evs hd]
    | ok p =>
      obtain ⟨stI, evs⟩ := p
      have hd := mct_inner_events_dut handler bl i ACVP_DES_MCT_INNER 0
        { st with stc := (acvp_des_output_mct_tc st.stc).2 }
      rw [hrecI] at hd
      simp only [innerEvents] at hd
      have hkI : stI.stc.key.length = 24 := by
        have hk := mct_inner_key_length handler bl i hlen ACVP_DES_MCT_INNER 0 _ stI evs hrecI
        rw [hk]
        simp only []
        rw [(output_mct_tc_preserves st.stc).2.2]
        exact h24
      have hpostkey := (mct_outer_post_fields (acvp_des_output_mct_tc st.stc).1 stI).1
      have hlen24 : ((mct_outer_post (acvp_des_output_mct_tc st.stc).1 stI).1).stc.key.length = 24 := by
        rw [hpostkey, length_set_odd_parity, length_tdes_mct_key_xor, hkI]
      have hparity : ((mct_outer_post (acvp_des_output_mct_tc st.stc).1 stI).1).stc.key.all
          byteHasOddParity = true := by
        rw [hpostkey]
        exact set_odd_parity_all_odd _
      have hround : roundDoneParityOK
          (MctEv.roundDone i ((mct_outer_post (acvp_des_output_mct_tc st.stc).1 stI).1).stc.key) = true := by
        simp [roundDoneParityOK, hlen24, hparity]
      have hih := ih (i + 1) ((mct_outer_post (acvp_des_output_mct_tc st.stc).1 stI).1) hlen24
      cases hrecO : mct_outer handler bl (i + 1) m
          ((mct_outer_post (acvp_des_output_mct_tc st.stc).1 stI).1) with
      | error e2 =>
        obtain ⟨e3, evs'⟩ := e2
        rw [hrecO] at hih
        simp only [outerEvents] at hih
        dsimp only
        rw [hrecO]
        simp only [outerEvents]
        rw [List.all_eq_true]
        intro x hx
        simp only [List.mem_append, List.mem_cons, List.not_mem_nil, or_false] at hx
        rcases hx with ((rfl | hx | rfl) | hx)
        · rfl
        · exact List.all_eq_true.mp (all_roundDone_of_all_dut evs hd) x hx
        · exact hround
        · exact List.all_eq_true.mp hih x hx
      | ok p2 =>
        obtain ⟨stF, objs, evs'⟩ := p2
        rw [hrecO] at hih
        simp only [outerEvents] at hih
        dsimp only
        rw [hrecO]
        simp only [outerEvents]
        rw [List.all_eq_true]
        intro x hx
        simp only [List.mem_append, List.mem_cons, List.not_mem_nil, or_false] at hx
        rcases hx with ((rfl | hx | rfl) | hx)
        · rfl
        · exact List.all_eq_true.mp (all_roundDone_of_all_dut evs hd) x hx
        · exact hround
        · exact List.all_eq_true.mp hih x hx

/-- C4: at the end of every TDES MCT outer round the key has been
XORed per `key[0..8] ^= nk[16..24]`, `key[8..16] ^= nk[8..16]`,
`key[16..24] ^= nk[0..8]` and passed through the 256-entry odd-parity
table (the definition of `mct_outer_post`), so after every completed
outer round — all of rounds 0..99 — each of the 24 key bytes has odd
parity, for any DUT handler that preserves the key buffer length. -/
theorem mct_outer_round_key_parity (handler : SymTC → Int × SymTC) (nk0 : Bytes) (stc0 : SymTC)
    (hlen : ∀ s, ((handler s).2).key.length = s.key.length)
    (h24 : stc0.key.length = 24) :
    (mctEvents (acvp_des_mct_tc handler nk0 stc0)).all roundDoneParityOK = true := by
  unfold acvp_des_mct_tc
  cases hbl : desMctBitLen stc0.cipher with
  | none => rfl
  | some bl =>
    have houter := mct_outer_parity handler bl hlen ACVP_DES_MCT_OUTER 0
      (mctInitState nk0 stc0) h24
    cases hrec : mct_outer handler bl 0 ACVP_DES_MCT_OUTER (mctInitState nk0 stc0) with
    | error e =>
      obtain ⟨e1, evs⟩ := e
      rw [hrec] at houter
      simp only [outerEvents] at houter
      dsimp only
      rw [hrec]
      simpa [mctEvents] using houter
    | ok p =>
      obtain ⟨stF, objs, evs⟩ := p
      rw [hrec] at houter
      simp only [outerEvents] at houter
      dsimp only
      rw [hrec]
      simpa [mctEvents] using houter

/-- Witness for C4 with an identity DUT and a 24-byte key. -/
theorem mct_outer_round_key_parity_witness :
    (mctEvents (acvp_des_mct_tc (fun s => ((0 : Int), s)) (List.replicate 32 0)
        { key := List.replicate 24 0 })).all roundDoneParityOK = true :=
  mct_outer_round_key_parity (fun s => ((0 : Int), s)) (List.replicate 32 0)
    { key := List.replicate 24 0 } (fun _ => rfl) (by simp)

/-- For a never-failing DUT, the inner loop completes with exactly one
DUT event per inner index `j`, carrying `mct_index = j`, and it
preserves the cipher and direction when the DUT does. -/
theorem mct_inner_ok_shape (handler : SymTC → Int × SymTC) (bl i : Nat)
    (hok : ∀ s, (handler s).1 = 0)
    (hcd : ∀ s, ((handler s).2).cipher = s.cipher ∧ ((handler s).2).direction = s.direction) :
    ∀ (fuel j : Nat) (st : MctState), ∃ st',
      mct_inner handler bl i j fuel st
        = .ok (st', (List.range' j fuel).map (fun jj => MctEv.dut i jj jj)) ∧
      st'.stc.cipher = st.stc.cipher ∧ st'.stc.direction = st.stc.direction := by
  intro fuel
  induction fuel with
  | zero =>
    intro j st
    exact ⟨st, rfl, rfl, rfl⟩
  | succ m ih =>
    intro j st
    obtain ⟨st', hrec, hc, hd⟩ := ih (j + 1)
      (acvp_des_mct_iterate_tc
        (mct_nk_update bl { mct_inner_pre j st with stc := (handler (mct_inner_pre j st).stc).2 }))
    refine ⟨st', ?_, ?_, ?_⟩
    · simp only [mct_inner]
      rw [if_neg (by simp [hok])]
      rw [hrec]
      dsimp only
      rw [List.range'_succ]
      simp [(mct_inner_pre_preserves j st).2.2.2]
    · calc st'.stc.cipher
          = (acvp_des_mct_iterate_tc
              (mct_nk_update bl
                { mct_inner_pre j st with stc := (handler (mct_inner_pre j st).stc).2 })).stc.cipher := hc
        _ = (mct_nk_update bl
              { mct_inner_pre j st with stc := (handler (mct_inner_pre j st).stc).2 }).stc.cipher :=
            (iterate_tc_preserves _).1
        _ = ((handler (mct_inner_pre j st).stc).2).cipher := by rw [mct_nk_update_stc]
        _ = (mct_inner_pre j st).stc.cipher := (hcd _).1
        _ = st.stc.cipher := (mct_inner_pre_preserves j st).1
    · calc st'.stc.direction
          = (acvp_des_mct_iterate_tc
              (mct_nk_update bl
                { mct_inner_pre j st with stc := (handler (mct_inner_pre j st).stc).2 })).stc.direction := hd
        _ = (mct_nk_update bl
              { mct_inner_pre j st with stc := (handler (mct_inner_pre j st).stc).2 }).stc.direction :=
            (iterate_tc_preserves _).2.1
        _ = ((handler (mct_inner_pre j st).stc).2).direction := by rw [mct_nk_update_stc]
        _ = (mct_inner_pre j st).stc.direction := (hcd _).2
        _ = st.stc.direction := (mct_inner_pre_preserves j st).2.1

/-- The round object created at the top of an outer round carries the
fields the claim lists: `iv` unless ECB, and the input `pt` on
encrypt or `ct` on decrypt. -/
theorem output_mct_tc_emit_fields (stc : SymTC) :
    roundEmitFieldsOK stc.cipher stc.direction (acvp_des_output_mct_tc stc).1 = true := by
  unfold acvp_des_output_mct_tc roundEmitFieldsOK
  rcases hd : stc.direction <;> by_cases hc : stc.cipher = .tdes_cfb1 <;>
    by_cases he : stc.cipher = .tdes_ecb <;> simp [hd, hc, he]

/-- For a never-failing, mode-preserving DUT, the outer loop starting
at round `i` with `fuel` rounds left completes, producing one
`RoundRec` per round: the results list is the completed objects in
round order, the trace has the canonical emit/DUT/key shape, and
every emitted round object has the claimed fields. -/
theorem mct_outer_ok_shape (handler : SymTC → Int × SymTC) (bl : Nat)
    (hok : ∀ s, (handler s).1 = 0)
    (hcd : ∀ s, ((handler s).2).cipher = s.cipher ∧ ((handler s).2).direction = s.direction) :
    ∀ (fuel i : Nat) (st : MctState), ∃ (stF : MctState) (rs : List RoundRec),
      mct_outer handler bl i fuel st
        = .ok (stF, rs.map RoundRec.completed, mctTraceShape ACVP_DES_MCT_INNER i rs) ∧
      rs.length = fuel ∧
      rs.all (fun r => roundEmitFieldsOK st.stc.cipher st.stc.direction r.emitted) = true ∧
      stF.stc.cipher = st.stc.cipher ∧ stF.stc.direction = st.stc.direction := by
  intro fuel
  induction fuel with
  | zero =>
    intro i st
    exact ⟨st, [], rfl, rfl, rfl, rfl, rfl⟩
  | succ m ih =>
    intro i st
    obtain ⟨stI, hrecI, hcI, hdI⟩ := mct_inner_ok_shape handler bl i hok hcd ACVP_DES_MCT_INNER 0
      { st with stc := (acvp_des_output_mct_tc st.stc).2 }
    obtain ⟨stF, rs', hrecO, hlen', hall', hcF, hdF⟩ := ih (i + 1)
      ((mct_outer_post (acvp_des_output_mct_tc st.stc).1 stI).1)
    have hc2 : (mct_outer_post (acvp_des_output_mct_tc st.stc).1 stI).1.stc.cipher
        = st.stc.cipher := by
      rw [(mct_outer_post_fields _ _).2.1, hcI]
      show ((acvp_des_output_mct_tc st.stc).2).cipher = st.stc.cipher
      exact (output_mct_tc_preserves st.stc).1
    have hd2 : (mct_outer_post (acvp_des_output_mct_tc st.stc).1 stI).1.stc.direction
        = st.stc.direction := by
      rw [(mct_outer_post_fields _ _).2.2, hdI]
      show ((acvp_des_output_mct_tc st.stc).2).direction = st.stc.direction
      exact (output_mct_tc_preserves st.stc).2.1
    refine ⟨stF,
      ⟨(acvp_des_output_mct_tc st.stc).1,
       (mct_outer_post (acvp_des_output_mct_tc st.stc).1 stI).1.stc.key,
       (mct_outer_post (acvp_des_output_mct_tc st.stc).1 stI).2⟩ :: rs', ?_, ?_, ?_, ?_, ?_⟩
    · simp only [mct_outer]
      rw [hrecI]
      dsimp only
      rw [hrecO]
      dsimp only
      simp [mctTraceShape]
    · simp [hlen']
    · rw [List.all_cons, Bool.and_eq_true]
      refine ⟨output_mct_tc_emit_fields st.stc, ?_⟩
      rw [← hc2, ← hd2]
      exact hall'
    · rw [hcF, hc2]
    · rw [hdF, hd2]

/-- C5: for every supported TDES MCT test case and any never-failing,
mode-preserving DUT, the engine runs exactly `ACVP_DES_MCT_OUTER =
100` outer rounds, each with exactly `ACVP_DES_MCT_INNER = 1000` DUT
invocations whose `mct_index` equals the inner index, appends exactly
one completed round object per outer round to `resultsArray` in outer
round order, and emits each round object (key fragments, `iv` unless
ECB, and the input `pt` or `ct`) before that round's inner loop
runs — visible in the trace as the emission event preceding the
round's DUT events. -/
theorem mct_loop_structure (handler : SymTC → Int × SymTC) (nk0 : Bytes) (stc0 : SymTC) (bl : Nat)
    (hok : ∀ s, (handler s).1 = 0)
    (hcd : ∀ s, ((handler s).2).cipher = s.cipher ∧ ((handler s).2).direction = s.direction)
    (hbl : desMctBitLen stc0.cipher = some bl) :
    ∃ (stF : SymTC) (rs : List RoundRec),
      acvp_des_mct_tc handler nk0 stc0
        = .ok (stF, rs.map RoundRec.completed, mctTraceShape ACVP_DES_MCT_INNER 0 rs) ∧
      rs.length = ACVP_DES_MCT_OUTER ∧
      rs.all (fun r => roundEmitFieldsOK stc0.cipher stc0.direction r.emitted) = true := by
  obtain ⟨stF, rs, hrec, hlen, hall, _, _⟩ :=
    mct_outer_ok_shape handler bl hok hcd ACVP_DES_MCT_OUTER 0 (mctInitState nk0 stc0)
  refine ⟨stF.stc, rs, ?_, hlen, hall⟩
  unfold acvp_des_mct_tc
  rw [hbl]
  dsimp only
  rw [hrec]

/-- Witness for C5 with an identity DUT on a default (ECB encrypt)
test case. -/
theorem mct_loop_structure_witness :
    ∃ (stF : SymTC) (rs : List RoundRec),
      acvp_des_mct_tc (fun s => ((0 : Int), s)) (List.replicate 32 0) {}
        = .ok (stF, rs.map RoundRec.completed, mctTraceShape ACVP_DES_MCT_INNER 0 rs) ∧
      rs.length = ACVP_DES_MCT_OUTER ∧
      rs.all (fun r => roundEmitFieldsOK (SymTC.cipher {}) (SymTC.direction {}) r.emitted) = true :=
  mct_loop_structure (fun s => ((0 : Int), s)) (List.replicate 32 0) {} 64
    (fun _ => rfl) (fun _ => ⟨rfl, rfl⟩) rfl

end Libacvp
